import Mathlib

/-!
# A verification development for the `ymdflag` Go package

`ymdflag` stores a calendar date as the integer `yyyymmdd` (or `0` for
"unset") and exposes it as a command-line flag value.  This file gives a
shallow embedding of the package's core (`ymdflag.go`) in Lean and proves
the behavioural properties its documentation states.

Modelling conventions:

* Go `int` is embedded as `Int`; Go integer division and remainder are
  truncated, so they are embedded as `Int.tdiv` / `Int.tmod`.
* Go strings are embedded as `List Char` (a list of runes); `len` on a Go
  string counts UTF-8 bytes, embedded as `utf8Len`.
* A `time.Location` is embedded as its fixed offset east of UTC in
  seconds (`Int`); a nullable location is `Option Int` and `time.Local`
  is passed around explicitly as an extra `localOffset` argument.
* A `time.Time` is embedded as `GoTime`: its wall-clock calendar fields
  together with the location offset.  The internal absolute second count
  of a Go `Time` (seconds since January 1, year 1, 00:00:00 UTC) is
  recovered by `GoTime.sec`; `IsZero` compares it with `0`, exactly as
  `time.Time.IsZero` does.
* `time.Date(y, m, d, 0, 0, 0, 0, loc)` first normalizes the month into
  `[1, 12]` (adjusting the year) and then adds `d - 1` days to the first
  of that month.  The embedding `goDate` performs the month step with
  floor division (`normMonth`, exactly Go's `norm`) and the day step by
  carrying/borrowing whole months (`carryDays` / `borrowDays`), which
  computes the same civil date.  The fuel `400` is far more than enough
  for every value these functions are applied to in this package
  (`day = yyyymmdd % 100` lies in `[0, 99]`, which needs at most four
  carries or one borrow).
* The proleptic Gregorian day count `daysFromCivil` (days since
  January 1 of year 1) uses the standard 400-year-era computation; the
  calendar rules (leap years, month lengths) are exactly those of Go's
  `time` package.
* The host clock is an external collaborator: `time.Now()` (after the
  optional `In(location)` conversion) enters the model as an explicit
  `GoTime` argument.
* `unicode.IsDigit` covers all Unicode decimal digits.  The embedding
  takes the digit predicate as a parameter `udigit` and theorems assume
  only that it agrees with the ASCII digit test on ASCII characters,
  which is true of `unicode.IsDigit`; concrete witnesses instantiate it
  with the ASCII test.
-/

namespace Ymdflag

/-- Go strings, as lists of runes. -/
abbrev GoStr := List Char

/-- The number of UTF-8 bytes of a Go string (Go's `len` on a string). -/
def utf8Len (s : GoStr) : Nat := (s.map Char.utf8Size).sum

/-- Go error values, by their message. -/
abbrev GoError := String

/-- `true` on `.ok`, `false` on `.error`. -/
def exceptOk {α : Type} (e : Except GoError α) : Bool :=
  match e with
  | .ok _ => true
  | .error _ => false

/-- Leap year rule of the proleptic Gregorian calendar, as in Go's
`time` package (`year%4 == 0 && (year%100 != 0 || year%400 == 0)`;
divisibility is unaffected by the choice of remainder convention). -/
def isLeap (y : Int) : Bool := y % 4 = 0 && (y % 100 ≠ 0 || y % 400 = 0)

/-- Length of a month in the proleptic Gregorian calendar (Go's
`daysIn`).  Only meaningful for `m ∈ [1, 12]`. -/
def daysInMonth (y m : Int) : Int :=
  if m = 2 then (if isLeap y then 29 else 28)
  else if m = 4 ∨ m = 6 ∨ m = 9 ∨ m = 11 then 30
  else 31

/-- The month-normalization step of `time.Date`: Go's
`norm(year, int(month)-1, 12)` brings the zero-based month into
`[0, 12)` by floor division, adjusting the year. -/
def normMonth (y m : Int) : Int × Int :=
  (y + (m - 1) / 12, (m - 1) % 12 + 1)

/-- Day carry: while the day exceeds the current month's length, move to
the next month.  Models the day part of `time.Date`'s conversion through
the epoch day count, for days above the month length. -/
def carryDays : Nat → Int → Int → Int → Int × Int × Int
  | 0, y, m, d => (y, m, d)
  | fuel + 1, y, m, d =>
    if d > daysInMonth y m then
      (if m = 12 then carryDays fuel (y + 1) 1 (d - daysInMonth y m)
       else carryDays fuel y (m + 1) (d - daysInMonth y m))
    else (y, m, d)

/-- Day borrow: while the day is below `1`, move to the previous month.
Models the day part of `time.Date`'s conversion through the epoch day
count, for days below `1`. -/
def borrowDays : Nat → Int → Int → Int → Int × Int × Int
  | 0, y, m, d => (y, m, d)
  | fuel + 1, y, m, d =>
    if d < 1 then
      (if m = 1 then borrowDays fuel (y - 1) 12 (d + 31)
       else borrowDays fuel y (m - 1) (d + daysInMonth y (m - 1)))
    else (y, m, d)

/-- The calendar normalization performed by
`time.Date(y, m, d, 0, 0, 0, 0, loc)`: normalize the month, then settle
the day by borrowing/carrying whole months. -/
def normDate (y m d : Int) : Int × Int × Int :=
  let p := normMonth y m
  let b := borrowDays 400 p.1 p.2 d
  carryDays 400 b.1 b.2.1 b.2.2

/-- Days since January 1 of year 1 (proleptic Gregorian), for a
normalized date.  Standard 400-year-era computation; `(1, 1, 1) ↦ 0`,
matching the epoch of Go's internal absolute seconds. -/
def daysFromCivil (y m d : Int) : Int :=
  let y2 := if m ≤ 2 then y - 1 else y
  let era := y2 / 400
  let yoe := y2 - era * 400
  let mp := (m + 9) % 12
  let doy := (153 * mp + 2) / 5 + d - 1
  let doe := yoe * 365 + yoe / 4 - yoe / 100 + doy
  era * 146097 + doe - 306

/-- A Go `time.Time` (restricted to whole seconds and a fixed-offset
location): the wall-clock calendar date, the second within the wall
day, and the location's offset east of UTC in seconds. -/
structure GoTime where
  year : Int
  month : Int
  day : Int
  sod : Int
  offset : Int

/-- Seconds of the wall clock since January 1, year 1, 00:00:00. -/
def GoTime.wallAbs (t : GoTime) : Int :=
  86400 * daysFromCivil t.year t.month t.day + t.sod

/-- The internal second count of a Go `Time`: seconds since
January 1, year 1, 00:00:00 UTC. -/
def GoTime.sec (t : GoTime) : Int := t.wallAbs - t.offset

/-- `time.Time.IsZero`: the instant is second `0` of Go's internal
clock. -/
def GoTime.IsZero (t : GoTime) : Bool := t.sec = 0

/-- The zero `time.Time` (`time.Time{}`): midnight January 1, year 1,
UTC. -/
def zeroTime : GoTime := ⟨1, 1, 1, 0, 0⟩

/-- `time.Date(y, m, d, 0, 0, 0, 0, loc)` for a location with the given
fixed offset. -/
def goDate (y m d offset : Int) : GoTime :=
  let n := normDate y m d
  ⟨n.1, n.2.1, n.2.2, 0, offset⟩

/-! ## Decimal text (`strconv.Itoa`, `strconv.Atoi`) -/

/-- Little-endian decimal digits of a natural number ( `[]` for `0`);
structural fuel so that the function reduces in the kernel.  Fuel `20`
covers every 64-bit value. -/
def natDigitsRev : Nat → Nat → GoStr
  | 0, _ => []
  | fuel + 1, n => if n = 0 then [] else Nat.digitChar (n % 10) :: natDigitsRev fuel (n / 10)

/-- `strconv.Itoa`: decimal text of a Go `int` (64-bit, hence at most
19 digits), with no padding. -/
def goItoa (n : Int) : GoStr :=
  if n < 0 then '-' :: (natDigitsRev 20 (-n).toNat).reverse
  else if n = 0 then ['0']
  else (natDigitsRev 20 n.toNat).reverse

/-- The integer value of a list of decimal digit characters read
left-to-right. -/
def digitsVal (s : GoStr) : Int :=
  s.foldl (fun acc c => 10 * acc + ((c.toNat : Int) - 48)) 0

/-- `strconv.Atoi`: an optional sign followed by at least one ASCII
decimal digit.  (Go additionally rejects values overflowing 64 bits;
every string this package hands to `Atoi` has at most 8 bytes, far below
that bound.) -/
def goAtoi (s : GoStr) : Except GoError Int :=
  if s.head? = some '-' ∨ s.head? = some '+' then
    (if s.tail = [] ∨ ¬ List.all s.tail Char.isDigit then .error "invalid syntax"
     else if s.head? = some '-' then .ok (-(digitsVal s.tail))
     else .ok (digitsVal s.tail))
  else
    (if s = [] ∨ ¬ List.all s Char.isDigit then .error "invalid syntax"
     else .ok (digitsVal s))

/-- `fmt.Sprintf`'s `%0*d` verb: decimal text left-padded with zeros to
the given minimum width (a sign stays in front and counts toward the
width). -/
def sprintfPad (width : Nat) (n : Int) : GoStr :=
  if n < 0 then '-' :: (List.replicate (width - (goItoa n).length) '0' ++ goItoa (-n))
  else List.replicate (width - (goItoa n).length) '0' ++ goItoa n

/-! ## The `ymdflag` package (`ymdflag.go`) -/

/-- `isInt` checks that every rune of the string satisfies
`unicode.IsDigit`; the predicate is the parameter `udigit`. -/
def isInt (udigit : Char → Bool) (value : GoStr) : Bool := value.all udigit

/-- `ValidateYMD`: `0` is valid; negative or more-than-8-digit values
are errors; otherwise the decomposition must survive `time.Date`
unchanged (the comparison of `year`, `month`, `day` against the
reconstructed date reads back the wall-clock fields, which do not
depend on the location, so the `time.Local` argument of the source is
irrelevant here). -/
def ValidateYMD (yyyymmdd : Int) : Except GoError Unit :=
  if yyyymmdd = 0 then .ok ()
  else if yyyymmdd < 0 then .error "yyyymmdd is negative"
  else if yyyymmdd > 99999999 then .error "yyyymmdd is more than 8 digits"
  else
    let year := yyyymmdd.tdiv 10000
    let month := (yyyymmdd.tmod 10000).tdiv 100
    let day := yyyymmdd.tmod 100
    let dt := normDate year month day
    if year ≠ dt.1 ∨ month ≠ dt.2.1 ∨ day ≠ dt.2.2 then
      .error "yyyymmdd is bad or unnormalized"
    else .ok ()

/-- `YMDToTime`: the `Time` for a `yyyymmdd` in the given location
(`none` means a nil `*time.Location`, for which Go substitutes
`time.Local`, here the explicit `localOffset`).  `0` returns the zero
`Time`. -/
def YMDToTime (yyyymmdd : Int) (loc : Option Int) (localOffset : Int) : GoTime :=
  if yyyymmdd = 0 then zeroTime
  else
    let year := yyyymmdd.tdiv 10000
    let month := (yyyymmdd.tmod 10000).tdiv 100
    let day := yyyymmdd.tmod 100
    goDate year month day (loc.getD localOffset)

/-- `TimeToYMD`: the `yyyymmdd` of a `Time`'s wall clock; the zero
`Time` gives `0`. -/
def TimeToYMD (t : GoTime) : Int :=
  if t.IsZero then 0 else 10000 * t.year + 100 * t.month + t.day

/-- `StringToYMD`: empty means `0`; otherwise the string must be 8
bytes of `unicode.IsDigit` runes, convert through `Atoi` and pass
`ValidateYMD`. -/
def StringToYMD (udigit : Char → Bool) (str : GoStr) : Except GoError Int :=
  if str = [] then .ok 0
  else if utf8Len str ≠ 8 ∨ isInt udigit str = false then
    .error "expect string of format YYYYMMDD"
  else
    match goAtoi str with
    | .error e => .error ("failed to convert string " ++ e)
    | .ok yyyymmdd =>
      match ValidateYMD yyyymmdd with
      | .error e => .error ("failed to validate string " ++ e)
      | .ok _ => .ok yyyymmdd

/-- The flag value: an integral `yyyymmdd`, `0` meaning unset. -/
structure YMDFlag where
  yyyymmdd : Int

/-- `GetYMD`. -/
def YMDFlag.GetYMD (ymd : YMDFlag) : Int := ymd.yyyymmdd

/-- `IsZero`. -/
def YMDFlag.IsZero (ymd : YMDFlag) : Bool := ymd.yyyymmdd = 0

/-- `AsYMD`. -/
def YMDFlag.AsYMD (ymd : YMDFlag) : Int := ymd.yyyymmdd

/-- `AsYMDString`: `strconv.Itoa` of the value, empty when unset. -/
def YMDFlag.AsYMDString (ymd : YMDFlag) : GoStr :=
  if ymd.yyyymmdd = 0 then [] else goItoa ymd.yyyymmdd

/-- `AsYearMonthDay`: the decomposed date, `(0, 0, 0)` when unset. -/
def YMDFlag.AsYearMonthDay (ymd : YMDFlag) : Int × Int × Int :=
  if ymd.IsZero then (0, 0, 0)
  else (ymd.yyyymmdd.tdiv 10000, (ymd.yyyymmdd.tmod 10000).tdiv 100, ymd.yyyymmdd.tmod 100)

/-- The `String` method of the flag interface.  Pointer-receiver
methods are embedded in state-passing style, returning the updated
receiver next to the result; the body of `String` performs no
assignment, so the receiver comes back as it went in. -/
def YMDFlag.String (ymd : YMDFlag) : GoStr × YMDFlag :=
  (ymd.AsYMDString, ymd)

/-- The `Set` method of the flag interface: parse, and store only on
success.  Returns the updated receiver and the error (`none` for
success). -/
def YMDFlag.Set (udigit : Char → Bool) (ymd : YMDFlag) (value : GoStr) :
    YMDFlag × Option GoError :=
  match StringToYMD udigit value with
  | .error e => (ymd, some e)
  | .ok v => (⟨v⟩, none)

/-- `NewYMDFlag`: build a flag from a `Time`'s date. -/
def NewYMDFlag (t : GoTime) : YMDFlag := ⟨TimeToYMD t⟩

/-- `NewYMDFlagFromInt`: build a flag from an integer after
validation. -/
def NewYMDFlagFromInt (i : Int) : Except GoError YMDFlag :=
  match ValidateYMD i with
  | .error e => .error e
  | .ok _ => .ok ⟨i⟩

/-- `UpdateNilToNow`: a non-zero flag is left alone; a zero flag is set
to the current date.  The host clock is an external collaborator: `now`
is the current `time.Time` as already observed in the method's
effective location (`time.Now()`, converted by `In(location)` when a
location was supplied). -/
def YMDFlag.UpdateNilToNow (ymd : YMDFlag) (now : GoTime) : YMDFlag :=
  if ymd.yyyymmdd ≠ 0 then ymd else ⟨TimeToYMD now⟩

/-- `FormatDirPath`: `YYYY{sep}MM{sep}DD` via
`fmt.Sprintf("%04d%c%02d%c%02d", ...)`, empty when unset. -/
def FormatDirPath (ymd : YMDFlag) (separator : Char) : GoStr :=
  if ymd.IsZero then []
  else
    let t := ymd.AsYearMonthDay
    sprintfPad 4 t.1 ++ separator :: (sprintfPad 2 t.2.1 ++ separator :: sprintfPad 2 t.2.2)

/-! ## Specification-side definitions -/

/-- Written from the spec: a real calendar date under strict,
non-normalizing proleptic-Gregorian rules — month in `[1, 12]` and day
in `[1, daysInMonth]`. -/
def isValidDate (y m d : Int) : Bool :=
  1 ≤ m && m ≤ 12 && 1 ≤ d && d ≤ daysInMonth y m

/-! ## Calendar lemmas -/

theorem daysInMonth_bounds (y m : Int) :
    28 ≤ daysInMonth y m ∧ daysInMonth y m ≤ 31 := by
  unfold daysInMonth
  split_ifs <;> omega

theorem daysInMonth_twelve (y : Int) : daysInMonth y 12 = 31 := by
  unfold daysInMonth
  norm_num

theorem normMonth_id (y m : Int) (h1 : 1 ≤ m) (h2 : m ≤ 12) :
    normMonth y m = (y, m) := by
  unfold normMonth
  have hd : (m - 1) / 12 = 0 := by omega
  have hm : (m - 1) % 12 = m - 1 := by omega
  rw [hd, hm, Prod.mk.injEq]
  omega

theorem normMonth_month_range (y m : Int) :
    1 ≤ (normMonth y m).2 ∧ (normMonth y m).2 ≤ 12 := by
  unfold normMonth
  have := Int.emod_nonneg (m - 1) (b := 12) (by omega)
  have := Int.emod_lt_of_pos (m - 1) (b := 12) (by omega)
  simp only
  omega

theorem carryDays_stop (fuel : Nat) (y m d : Int) (hf : 0 < fuel)
    (h : d ≤ daysInMonth y m) : carryDays fuel y m d = (y, m, d) := by
  obtain ⟨f, rfl⟩ : ∃ f, fuel = f + 1 := ⟨fuel - 1, by omega⟩
  simp [carryDays]
  omega

theorem borrowDays_stop (fuel : Nat) (y m d : Int) (hf : 0 < fuel)
    (h : 1 ≤ d) : borrowDays fuel y m d = (y, m, d) := by
  obtain ⟨f, rfl⟩ : ∃ f, fuel = f + 1 := ⟨fuel - 1, by omega⟩
  simp [borrowDays]
  omega

theorem carryDays_month_range (fuel : Nat) :
    ∀ y m d : Int, 1 ≤ m → m ≤ 12 →
      1 ≤ (carryDays fuel y m d).2.1 ∧ (carryDays fuel y m d).2.1 ≤ 12 := by
  induction fuel with
  | zero => intro y m d h1 h2; simp [carryDays]; omega
  | succ f ih =>
    intro y m d h1 h2
    simp only [carryDays]
    split_ifs with hd hm
    · exact ih (y + 1) 1 (d - daysInMonth y m) (by omega) (by omega)
    · exact ih y (m + 1) (d - daysInMonth y m) (by omega) (by omega)
    · simp; omega

theorem borrowDays_month_range (fuel : Nat) :
    ∀ y m d : Int, 1 ≤ m → m ≤ 12 →
      1 ≤ (borrowDays fuel y m d).2.1 ∧ (borrowDays fuel y m d).2.1 ≤ 12 := by
  induction fuel with
  | zero => intro y m d h1 h2; simp [borrowDays]; omega
  | succ f ih =>
    intro y m d h1 h2
    simp only [borrowDays]
    split_ifs with hd hm
    · exact ih (y - 1) 12 (d + 31) (by omega) (by omega)
    · exact ih y (m - 1) (d + daysInMonth y (m - 1)) (by omega) (by omega)
    · simp; omega

/-- Carrying never moves the `(year, month)` pair lexicographically
backwards. -/
theorem carryDays_lex (fuel : Nat) :
    ∀ y m d : Int, m ≤ 12 →
      y < (carryDays fuel y m d).1 ∨
        ((carryDays fuel y m d).1 = y ∧ m ≤ (carryDays fuel y m d).2.1) := by
  induction fuel with
  | zero => intro y m d h; simp [carryDays]
  | succ f ih =>
    intro y m d h
    simp only [carryDays]
    split_ifs with hd hm
    · rcases ih (y + 1) 1 (d - daysInMonth y m) (by omega) with h' | ⟨h1, h2⟩
      · left; omega
      · left; omega
    · rcases ih y (m + 1) (d - daysInMonth y m) (by omega) with h' | ⟨h1, h2⟩
      · left; exact h'
      · right; exact ⟨h1, by omega⟩
    · right; simp

theorem carryDays_unfold (fuel : Nat) (y m d : Int) (hf : 0 < fuel) :
    carryDays fuel y m d =
      if d > daysInMonth y m then
        (if m = 12 then carryDays (fuel - 1) (y + 1) 1 (d - daysInMonth y m)
         else carryDays (fuel - 1) y (m + 1) (d - daysInMonth y m))
      else (y, m, d) := by
  obtain ⟨f, rfl⟩ : ∃ f, fuel = f + 1 := ⟨fuel - 1, by omega⟩
  simp [carryDays]

theorem borrowDays_unfold (fuel : Nat) (y m d : Int) (hf : 0 < fuel) :
    borrowDays fuel y m d =
      if d < 1 then
        (if m = 1 then borrowDays (fuel - 1) (y - 1) 12 (d + 31)
         else borrowDays (fuel - 1) y (m - 1) (d + daysInMonth y (m - 1)))
      else (y, m, d) := by
  obtain ⟨f, rfl⟩ : ∃ f, fuel = f + 1 := ⟨fuel - 1, by omega⟩
  simp [borrowDays]

/-- The month of a `time.Date`-normalized date is always in
`[1, 12]`. -/
theorem normDate_month_range (y m d : Int) :
    1 ≤ (normDate y m d).2.1 ∧ (normDate y m d).2.1 ≤ 12 := by
  unfold normDate
  have h1 := normMonth_month_range y m
  have h2 := borrowDays_month_range 400 (normMonth y m).1 (normMonth y m).2 d h1.1 h1.2
  exact carryDays_month_range 400 _ _ _ h2.1 h2.2

/-- A strictly valid date passes `time.Date` unchanged. -/
theorem normDate_of_valid (y m d : Int) (h : isValidDate y m d = true) :
    normDate y m d = (y, m, d) := by
  have h' : 1 ≤ m ∧ m ≤ 12 ∧ 1 ≤ d ∧ d ≤ daysInMonth y m := by
    simpa [isValidDate, Bool.and_eq_true, decide_eq_true_eq, and_assoc] using h
  unfold normDate
  rw [normMonth_id y m h'.1 h'.2.1]
  simp only
  rw [borrowDays_stop 400 y m d (by norm_num) h'.2.2.1]
  simp only
  exact carryDays_stop 400 y m d (by norm_num) h'.2.2.2

/-- For the day range `[0, 99]` reachable from `yyyymmdd % 100`,
`time.Date` returns the decomposition unchanged exactly when it is a
strictly valid date. -/
theorem normDate_eq_iff (y m d : Int) (hd0 : 0 ≤ d) (hd99 : d ≤ 99) :
    normDate y m d = (y, m, d) ↔ isValidDate y m d = true := by
  constructor
  · intro heq
    have hmr := normDate_month_range y m d
    rw [heq] at hmr
    simp only [Prod.snd, Prod.fst] at hmr
    have hm1 : 1 ≤ m := hmr.1
    have hm12 : m ≤ 12 := hmr.2
    unfold normDate at heq
    rw [normMonth_id y m hm1 hm12] at heq
    simp only [Prod.fst, Prod.snd] at heq
    by_cases hd1 : 1 ≤ d
    · rw [borrowDays_stop 400 y m d (by norm_num) hd1] at heq
      simp only [Prod.fst, Prod.snd] at heq
      have hdim : d ≤ daysInMonth y m := by
        by_contra hgt
        push_neg at hgt
        rw [carryDays_unfold 400 y m d (by norm_num), if_pos hgt] at heq
        by_cases hm : m = 12
        · rw [if_pos hm] at heq
          rcases carryDays_lex 399 (y + 1) 1 (d - daysInMonth y m) (by omega) with
            h' | ⟨h', _⟩ <;> rw [heq] at h' <;> simp only [Prod.fst, Prod.snd] at h' <;> omega
        · rw [if_neg hm] at heq
          rcases carryDays_lex 399 y (m + 1) (d - daysInMonth y m) (by omega) with
            h' | ⟨_, h'⟩ <;> rw [heq] at h' <;> simp only [Prod.fst, Prod.snd] at h' <;> omega
      simp only [isValidDate, Bool.and_eq_true, decide_eq_true_eq]
      omega
    · exfalso
      have hd : d = 0 := by omega
      subst hd
      rw [borrowDays_unfold 400 y m 0 (by norm_num), if_pos (by norm_num)] at heq
      by_cases hm : m = 1
      · rw [if_pos hm] at heq
        rw [borrowDays_stop 399 (y - 1) 12 (0 + 31) (by norm_num) (by norm_num)] at heq
        simp only [Prod.fst, Prod.snd] at heq
        rw [carryDays_stop 400 (y - 1) 12 (0 + 31) (by norm_num)
          (by rw [daysInMonth_twelve]; norm_num)] at heq
        rw [Prod.mk.injEq, Prod.mk.injEq] at heq
        omega
      · rw [if_neg hm] at heq
        have h28 := daysInMonth_bounds y (m - 1)
        rw [borrowDays_stop 399 y (m - 1) (0 + daysInMonth y (m - 1)) (by norm_num)
          (by omega)] at heq
        simp only [Prod.fst, Prod.snd] at heq
        rw [carryDays_stop 400 y (m - 1) (0 + daysInMonth y (m - 1)) (by norm_num)
          (by omega)] at heq
        rw [Prod.mk.injEq, Prod.mk.injEq] at heq
        omega
  · exact normDate_of_valid y m d

/-! ## Decimal text lemmas -/

theorem utf8Size_of_isDigit (c : Char) (h : c.isDigit = true) : c.utf8Size = 1 := by
  simp only [Char.isDigit, Bool.and_eq_true, decide_eq_true_eq] at h
  have h57 : c.val ≤ 57 := h.2
  unfold Char.utf8Size
  simp only []
  split
  · rfl
  · rename_i hn
    exfalso
    apply hn
    simp only [UInt32.le_def, BitVec.le_def] at h57 ⊢
    have h2 : (UInt32.ofNatCore 127 Char.utf8Size.proof_1).toBitVec.toNat = 127 := by decide
    have h3 : ((57 : UInt32)).toBitVec.toNat = 57 := by decide
    omega

/-- An all-ASCII-digits Go string has as many bytes as runes. -/
theorem utf8Len_of_all_digits (s : GoStr) (h : s.all Char.isDigit = true) :
    utf8Len s = s.length := by
  induction s with
  | nil => rfl
  | cons c cs ih =>
    simp only [List.all_cons, Bool.and_eq_true] at h
    simp only [utf8Len, List.map_cons, List.sum_cons, List.length_cons]
    rw [utf8Size_of_isDigit c h.1]
    have := ih h.2
    simp only [utf8Len] at this
    omega

theorem digitChar_toNat (k : Nat) (h : k < 10) : (Nat.digitChar k).toNat = 48 + k := by
  interval_cases k <;> rfl

theorem digitChar_isDigit (k : Nat) (h : k < 10) : (Nat.digitChar k).isDigit = true := by
  interval_cases k <;> rfl

theorem natDigitsRev_zero (fuel : Nat) : natDigitsRev fuel 0 = [] := by
  cases fuel <;> simp [natDigitsRev]

theorem natDigitsRev_length (fuel : Nat) :
    ∀ k n : Nat, k < fuel → 10 ^ k ≤ n → n < 10 ^ (k + 1) →
      (natDigitsRev fuel n).length = k + 1 := by
  induction fuel with
  | zero => intro k n hk; omega
  | succ f ih =>
    intro k n hk h1 h2
    have hn0 : n ≠ 0 := by
      have : 1 ≤ 10 ^ k := Nat.one_le_pow k 10 (by norm_num)
      omega
    simp only [natDigitsRev, if_neg hn0, List.length_cons]
    cases k with
    | zero =>
      have hlt : n < 10 := by simpa using h2
      rw [Nat.div_eq_of_lt hlt, natDigitsRev_zero]
      rfl
    | succ k' =>
      have h1' : 10 ^ k' ≤ n / 10 := by
        rw [Nat.le_div_iff_mul_le (by norm_num)]
        calc 10 ^ k' * 10 = 10 ^ (k' + 1) := (pow_succ 10 k').symm
        _ ≤ n := h1
      have h2' : n / 10 < 10 ^ (k' + 1) := by
        rw [Nat.div_lt_iff_lt_mul (by norm_num)]
        calc n < 10 ^ (k' + 1 + 1) := h2
        _ = 10 ^ (k' + 1) * 10 := pow_succ 10 (k' + 1)
      rw [ih k' (n / 10) (by omega) h1' h2']

theorem natDigitsRev_length_le (fuel : Nat) :
    ∀ k n : Nat, n < 10 ^ k → (natDigitsRev fuel n).length ≤ k := by
  induction fuel with
  | zero => intro k n _; simp [natDigitsRev]
  | succ f ih =>
    intro k n hk
    by_cases hn0 : n = 0
    · simp [natDigitsRev, hn0]
    · simp only [natDigitsRev, if_neg hn0, List.length_cons]
      cases k with
      | zero => simp at hk; omega
      | succ k' =>
        have : n / 10 < 10 ^ k' := by
          rw [Nat.div_lt_iff_lt_mul (by norm_num)]
          calc n < 10 ^ (k' + 1) := hk
          _ = 10 ^ k' * 10 := pow_succ 10 k'
        have := ih k' (n / 10) this
        omega

theorem natDigitsRev_all_digits (fuel : Nat) :
    ∀ n : Nat, (natDigitsRev fuel n).all Char.isDigit = true := by
  induction fuel with
  | zero => intro n; rfl
  | succ f ih =>
    intro n
    by_cases hn0 : n = 0
    · simp [natDigitsRev, hn0]
    · simp only [natDigitsRev, if_neg hn0, List.all_cons, Bool.and_eq_true]
      exact ⟨digitChar_isDigit (n % 10) (Nat.mod_lt n (by norm_num)), ih (n / 10)⟩

theorem digitsVal_append_singleton (xs : GoStr) (c : Char) :
    digitsVal (xs ++ [c]) = 10 * digitsVal xs + ((c.toNat : Int) - 48) := by
  simp [digitsVal, List.foldl_append]

theorem natDigitsRev_val (fuel : Nat) :
    ∀ n : Nat, n < 10 ^ fuel → digitsVal (natDigitsRev fuel n).reverse = (n : Int) := by
  induction fuel with
  | zero =>
    intro n hn
    have : n = 0 := by simpa using hn
    subst this
    rfl
  | succ f ih =>
    intro n hn
    by_cases hn0 : n = 0
    · subst hn0; rfl
    · simp only [natDigitsRev, if_neg hn0, List.reverse_cons]
      rw [digitsVal_append_singleton]
      have hdiv : n / 10 < 10 ^ f := by
        rw [Nat.div_lt_iff_lt_mul (by norm_num)]
        calc n < 10 ^ (f + 1) := hn
        _ = 10 ^ f * 10 := pow_succ 10 f
      rw [ih (n / 10) hdiv, digitChar_toNat (n % 10) (Nat.mod_lt n (by norm_num))]
      have h1 : n % 10 + 10 * (n / 10) = n := Nat.mod_add_div n 10
      push_cast
      omega

theorem digitsVal_zeros (k : Nat) :
    List.foldl (fun acc c => 10 * acc + ((c.toNat : Int) - 48)) 0 (List.replicate k '0') = 0 := by
  induction k with
  | zero => rfl
  | succ k ih =>
    rw [List.replicate_succ, List.foldl_cons]
    have : (10 : Int) * 0 + (((('0').toNat : Int)) - 48) = 0 := by decide
    rw [this]
    exact ih

theorem digitsVal_zeros_append (k : Nat) (s : GoStr) :
    digitsVal (List.replicate k '0' ++ s) = digitsVal s := by
  simp only [digitsVal, List.foldl_append, digitsVal_zeros]

/-- `%0*d` on a non-negative value below `10 ^ width`: exactly `width`
decimal digits whose value is the argument. -/
theorem sprintfPad_spec (w : Nat) (n : Int) (hw1 : 0 < w) (hw2 : w ≤ 20)
    (h0 : 0 ≤ n) (hlt : n < 10 ^ w) :
    (sprintfPad w n).length = w ∧ digitsVal (sprintfPad w n) = n ∧
      (sprintfPad w n).all Char.isDigit = true := by
  have hcast : ((10 ^ w : Nat) : Int) = 10 ^ w := by push_cast; ring
  have hnat : n.toNat < 10 ^ w := by
    rw [Int.toNat_lt h0, hcast]
    exact hlt
  have hzeros : ∀ k : Nat, (List.replicate k '0').all Char.isDigit = true := by
    intro k
    simp only [List.all_eq_true, List.mem_replicate]
    rintro x ⟨-, rfl⟩
    rfl
  unfold sprintfPad
  rw [if_neg (by omega)]
  by_cases hn0 : n = 0
  · subst hn0
    unfold goItoa
    rw [if_neg (by omega), if_pos rfl]
    refine ⟨?_, ?_, ?_⟩
    · simp only [List.length_append, List.length_replicate, List.length_cons,
        List.length_nil]
      omega
    · rw [digitsVal_zeros_append]
      rfl
    · rw [List.all_append, hzeros]
      rfl
  · unfold goItoa
    rw [if_neg (by omega), if_neg hn0]
    have hlen : (natDigitsRev 20 n.toNat).reverse.length ≤ w := by
      rw [List.length_reverse]
      exact natDigitsRev_length_le 20 w n.toNat hnat
    have hfuel : n.toNat < 10 ^ 20 :=
      lt_of_lt_of_le hnat (Nat.pow_le_pow_right (by norm_num) hw2)
    refine ⟨?_, ?_, ?_⟩
    · simp only [List.length_append, List.length_replicate]
      omega
    · rw [digitsVal_zeros_append, natDigitsRev_val 20 n.toNat hfuel]
      omega
    · rw [List.all_append, hzeros, List.all_reverse]
      rw [natDigitsRev_all_digits 20 n.toNat]
      rfl

/-! ## Bridging truncated and Euclidean division on the non-negative
range -/

theorem tdiv_10000 (n : Int) (h : 0 ≤ n) : n.tdiv 10000 = n / 10000 :=
  Int.tdiv_eq_ediv h (by norm_num)

theorem tmod_tdiv_100 (n : Int) (h : 0 ≤ n) :
    (n.tmod 10000).tdiv 100 = (n % 10000) / 100 := by
  rw [Int.tmod_eq_emod h (by norm_num)]
  exact Int.tdiv_eq_ediv (Int.emod_nonneg n (by norm_num)) (by norm_num)

theorem tmod_100 (n : Int) (h : 0 ≤ n) : n.tmod 100 = n % 100 :=
  Int.tmod_eq_emod h (by norm_num)

/-! ## The claims -/

/-- C2: `ValidateYMD n` succeeds exactly when `n = 0`, or `n` lies in
`[1, 99999999]` and its decomposition
`(n / 10000, (n % 10000) / 100, n % 100)` is a real
proleptic-Gregorian calendar date under strict, non-normalizing rules;
in particular `20240229` validates while `20230229`, `20221301`,
`20221241` and `-1` fail. -/
theorem validateYMD_characterization :
    (∀ n : Int, ValidateYMD n = .ok () ↔
      (n = 0 ∨ (1 ≤ n ∧ n ≤ 99999999 ∧
        isValidDate (n.tdiv 10000) ((n.tmod 10000).tdiv 100) (n.tmod 100) = true))) ∧
    ValidateYMD 20240229 = .ok () ∧
    exceptOk (ValidateYMD 20230229) = false ∧
    exceptOk (ValidateYMD 20221301) = false ∧
    exceptOk (ValidateYMD 20221241) = false ∧
    exceptOk (ValidateYMD (-1)) = false := by
  refine ⟨?_, rfl, rfl, rfl, rfl, rfl⟩
  intro n
  unfold ValidateYMD
  by_cases h0 : n = 0
  · rw [if_pos h0]
    simp [h0]
  · rw [if_neg h0]
    by_cases hneg : n < 0
    · rw [if_pos hneg]
      constructor
      · intro h
        exact absurd h (by simp)
      · intro h
        rcases h with h | ⟨h1, -⟩ <;> omega
    · rw [if_neg hneg]
      by_cases hbig : n > 99999999
      · rw [if_pos hbig]
        constructor
        · intro h
          exact absurd h (by simp)
        · intro h
          rcases h with h | ⟨-, h2, -⟩ <;> omega
      · rw [if_neg hbig]
        simp only []
        rw [tdiv_10000 n (by omega), tmod_tdiv_100 n (by omega), tmod_100 n (by omega)]
        have hiff := normDate_eq_iff (n / 10000) (n % 10000 / 100) (n % 100)
          (by omega) (by omega)
        have hprod : normDate (n / 10000) (n % 10000 / 100) (n % 100) =
            (n / 10000, n % 10000 / 100, n % 100) ↔
            ((normDate (n / 10000) (n % 10000 / 100) (n % 100)).1 = n / 10000 ∧
             (normDate (n / 10000) (n % 10000 / 100) (n % 100)).2.1 = n % 10000 / 100 ∧
             (normDate (n / 10000) (n % 10000 / 100) (n % 100)).2.2 = n % 100) := by
          rw [Prod.ext_iff, Prod.ext_iff]
        split_ifs with hcmp
        · constructor
          · intro h
            exact absurd h (by simp)
          · rintro (h | ⟨h1, h2, h3⟩)
            · omega
            · have h4 := hiff.mpr h3
              rw [hprod] at h4
              rw [h4.1, h4.2.1, h4.2.2] at hcmp
              simp at hcmp
        · constructor
          · intro _
            right
            push_neg at hcmp
            refine ⟨by omega, by omega, ?_⟩
            apply hiff.mp
            rw [hprod]
            exact ⟨hcmp.1.symm, hcmp.2.1.symm, hcmp.2.2.symm⟩
          · intro _
            rfl

/-- C6: the `String` method does not change the flag's state (it never
resolves an unset value to today), and on an unset flag it returns the
empty string. -/
theorem string_preserves_state :
    ∀ ymd : YMDFlag, (ymd.String).2 = ymd ∧ (ymd.yyyymmdd = 0 → (ymd.String).1 = []) := by
  intro ymd
  refine ⟨rfl, fun h => ?_⟩
  simp [YMDFlag.String, YMDFlag.AsYMDString, h]

theorem string_preserves_state_witness :
    ((YMDFlag.mk 0).String).2 = YMDFlag.mk 0 ∧ ((YMDFlag.mk 0).String).1 = [] :=
  ⟨(string_preserves_state ⟨0⟩).1, (string_preserves_state ⟨0⟩).2 rfl⟩

/-- C9: on a flag whose stored value is non-zero, `UpdateNilToNow` is a
no-op, whatever the current time (and hence whatever the location). -/
theorem updateNilToNow_noop :
    ∀ (ymd : YMDFlag) (now : GoTime), ymd.yyyymmdd ≠ 0 →
      ymd.UpdateNilToNow now = ymd := by
  intro ymd now h
  unfold YMDFlag.UpdateNilToNow
  rw [if_pos h]

theorem updateNilToNow_noop_witness :
    (YMDFlag.mk 20220102).UpdateNilToNow zeroTime = YMDFlag.mk 20220102 :=
  updateNilToNow_noop ⟨20220102⟩ zeroTime (by decide)

/-- C10: `Set` is atomic on failure: when parsing fails, `Set` returns
exactly the parse error and leaves the stored value untouched. -/
theorem set_atomic_on_error :
    ∀ (udigit : Char → Bool) (ymd : YMDFlag) (value : GoStr) (e : GoError),
      StringToYMD udigit value = .error e →
      YMDFlag.Set udigit ymd value = (ymd, some e) := by
  intro udigit ymd value e h
  unfold YMDFlag.Set
  rw [h]

theorem set_atomic_on_error_witness :
    YMDFlag.Set Char.isDigit ⟨20220102⟩ "hello world".toList =
      (⟨20220102⟩, some "expect string of format YYYYMMDD") :=
  set_atomic_on_error Char.isDigit ⟨20220102⟩ "hello world".toList
    "expect string of format YYYYMMDD" rfl

/-- `time.Date` on an already-valid date stores exactly its fields. -/
theorem goDate_valid_fields (y m d offset : Int) (h : isValidDate y m d = true) :
    goDate y m d offset = ⟨y, m, d, 0, offset⟩ := by
  unfold goDate
  rw [normDate_of_valid y m d h]

/-- C1 as stated is false: `10101` (January 1 of year 1) is a valid
non-zero encoded value, yet converting it in UTC (offset `0`) yields
Go's zero `Time`, which `TimeToYMD` maps back to `0`, not `10101`. -/
theorem roundtrip_fails_at_year1_jan1 :
    (0 < (10101 : Int) ∧ (10101 : Int) ≤ 99999999 ∧
      isValidDate ((10101 : Int).tdiv 10000) (((10101 : Int).tmod 10000).tdiv 100)
        ((10101 : Int).tmod 100) = true) ∧
    TimeToYMD (YMDToTime 10101 (some 0) 0) = 0 ∧ (0 : Int) ≠ 10101 :=
  ⟨⟨by norm_num, by norm_num, rfl⟩, rfl, by norm_num⟩

/-- C1 amended: for every valid non-zero `n` and every location,
`TimeToYMD (YMDToTime n loc)` returns `n` provided the constructed time
is not Go's zero `Time` (with a zero-offset location such as UTC that
exception is exactly `n = 10101`, midnight of January 1, year 1). -/
theorem roundtrip_of_not_zero_time :
    ∀ (n : Int) (loc : Option Int) (localOffset : Int),
      0 < n → n ≤ 99999999 →
      isValidDate (n.tdiv 10000) ((n.tmod 10000).tdiv 100) (n.tmod 100) = true →
      (YMDToTime n loc localOffset).IsZero = false →
      TimeToYMD (YMDToTime n loc localOffset) = n := by
  intro n loc l0 h1 h2 hval hnz
  unfold YMDToTime at hnz ⊢
  rw [if_neg (show ¬n = 0 by omega)] at hnz ⊢
  simp only [] at hnz ⊢
  rw [goDate_valid_fields _ _ _ _ hval] at hnz ⊢
  unfold TimeToYMD
  simp only [hnz, Bool.false_eq_true, if_false]
  show 10000 * n.tdiv 10000 + 100 * (n.tmod 10000).tdiv 100 + n.tmod 100 = n
  rw [tdiv_10000 n (by omega), tmod_tdiv_100 n (by omega), tmod_100 n (by omega)]
  omega

theorem roundtrip_of_not_zero_time_witness :
    TimeToYMD (YMDToTime 20220102 (some 3600) 0) = 20220102 :=
  roundtrip_of_not_zero_time 20220102 (some 3600) 0 (by norm_num) (by norm_num) rfl rfl

/-- C8: `YMDToTime 0` is the zero calendar time whatever the location,
and on a valid non-zero value it is midnight (`sod = 0`) of the decoded
year/month/day in the given location — the explicit process-default
offset when the location is nil. -/
theorem ymdToTime_zero_and_midnight :
    (∀ (loc : Option Int) (localOffset : Int), YMDToTime 0 loc localOffset = zeroTime) ∧
    (∀ (n : Int) (loc : Option Int) (localOffset : Int),
      0 < n →
      isValidDate (n.tdiv 10000) ((n.tmod 10000).tdiv 100) (n.tmod 100) = true →
      YMDToTime n loc localOffset =
        ⟨n.tdiv 10000, (n.tmod 10000).tdiv 100, n.tmod 100, 0, loc.getD localOffset⟩) := by
  constructor
  · intro loc l0
    rfl
  · intro n loc l0 h1 hval
    unfold YMDToTime
    rw [if_neg (show ¬n = 0 by omega)]
    exact goDate_valid_fields _ _ _ _ hval

theorem ymdToTime_zero_and_midnight_witness :
    YMDToTime 0 (some 3600) 0 = zeroTime ∧
    YMDToTime 20240229 none (-18000) = ⟨2024, 2, 29, 0, -18000⟩ := by
  constructor
  · exact ymdToTime_zero_and_midnight.1 (some 3600) 0
  · exact ymdToTime_zero_and_midnight.2 20240229 none (-18000) (by norm_num) rfl

/-- C3 as stated is false: `10101` (January 1 of year 1) is non-zero
and passes validation, yet `AsYMDString` prints it as the 5-character
string "10101" — `strconv.Itoa` does not zero-pad to 8. -/
theorem asYMDString_not_padded_at_10101 :
    ValidateYMD 10101 = .ok () ∧ (YMDFlag.mk 10101).yyyymmdd ≠ 0 ∧
      ((YMDFlag.mk 10101).AsYMDString).length = 5 ∧
      ((YMDFlag.mk 10101).AsYMDString).length ≠ 8 :=
  ⟨rfl, by norm_num, rfl, by decide⟩

/-- C3 amended: `AsYMDString` returns the plain decimal digits of the
stored value with no zero-padding — exactly 8 characters only when the
value has 8 digits (is in `[10000000, 99999999]`), the empty string
when unset — and `String` returns the same text. -/
theorem asYMDString_length :
    (∀ n : Int, 10000000 ≤ n → n ≤ 99999999 →
      ((YMDFlag.mk n).AsYMDString).length = 8 ∧
        digitsVal ((YMDFlag.mk n).AsYMDString) = n) ∧
    (YMDFlag.mk 0).AsYMDString = [] ∧
    (∀ ymd : YMDFlag, (ymd.String).1 = ymd.AsYMDString) := by
  refine ⟨?_, rfl, fun ymd => rfl⟩
  intro n h1 h2
  unfold YMDFlag.AsYMDString
  rw [if_neg (show ¬(YMDFlag.mk n).yyyymmdd = 0 from by change ¬n = 0; omega)]
  unfold goItoa
  rw [if_neg (show ¬(YMDFlag.mk n).yyyymmdd < 0 from by change ¬n < 0; omega),
    if_neg (show ¬(YMDFlag.mk n).yyyymmdd = 0 from by change ¬n = 0; omega)]
  have h7 : (10 : Nat) ^ 7 = 10000000 := by norm_num
  have h8 : (10 : Nat) ^ 8 = 100000000 := by norm_num
  have h20 : (10 : Nat) ^ 20 = 100000000000000000000 := by norm_num
  constructor
  · rw [List.length_reverse]
    exact natDigitsRev_length 20 7 n.toNat (by norm_num) (by omega) (by omega)
  · rw [natDigitsRev_val 20 n.toNat (by omega)]
    omega

theorem asYMDString_length_witness :
    ((YMDFlag.mk 20220102).AsYMDString).length = 8 :=
  (asYMDString_length.1 20220102 (by norm_num) (by norm_num)).1

/-- `ValidateYMD` only accepts values in `[0, 99999999]`. -/
theorem validateYMD_ok_range (v : Int) (h : ValidateYMD v = .ok ()) :
    0 ≤ v ∧ v ≤ 99999999 := by
  unfold ValidateYMD at h
  by_cases h0 : v = 0
  · omega
  · rw [if_neg h0] at h
    by_cases hneg : v < 0
    · rw [if_pos hneg] at h
      exact absurd h (by simp)
    · rw [if_neg hneg] at h
      by_cases hbig : v > 99999999
      · rw [if_pos hbig] at h
        exact absurd h (by simp)
      · omega

/-- `StringToYMD` only returns values in `[0, 99999999]`. -/
theorem stringToYMD_ok_range (udigit : Char → Bool) (s : GoStr) (v : Int)
    (h : StringToYMD udigit s = .ok v) : 0 ≤ v ∧ v ≤ 99999999 := by
  unfold StringToYMD at h
  by_cases he : s = []
  · rw [if_pos he] at h
    injection h with h'
    omega
  · rw [if_neg he] at h
    split_ifs at h with hguard
    split at h
    · exact absurd h (by simp)
    · split at h
      · exact absurd h (by simp)
      · rename_i w hA u hV
        injection h with h'
        subst h'
        exact validateYMD_ok_range _ hV

/-- `TimeToYMD` of a time with sane calendar fields has at most 8
digits. -/
theorem timeToYMD_range (t : GoTime) (h1 : 0 ≤ t.year) (h2 : t.year ≤ 9999)
    (h3 : 1 ≤ t.month) (h4 : t.month ≤ 12) (h5 : 1 ≤ t.day) (h6 : t.day ≤ 31) :
    0 ≤ TimeToYMD t ∧ TimeToYMD t ≤ 99999999 := by
  unfold TimeToYMD
  split_ifs <;> omega

/-- C4 as stated is false: `NewYMDFlag` performs no validation, so a
`time.Time` in year 10000 (constructible with `time.Date`) stores the
9-digit value `100000101`. -/
theorem newYMDFlag_stores_out_of_range :
    (NewYMDFlag (goDate 10000 1 1 0)).yyyymmdd = 100000101 ∧
      ¬(NewYMDFlag (goDate 10000 1 1 0)).yyyymmdd ≤ 99999999 := by
  constructor
  · rfl
  · rw [show (NewYMDFlag (goDate 10000 1 1 0)).yyyymmdd = 100000101 from rfl]
    norm_num

/-- C4 amended: flags built by `NewYMDFlagFromInt` or stored by a
successful `Set` always hold a value in `[0, 99999999]`;
`NewYMDFlag` and `UpdateNilToNow` stay in range provided the time's
calendar fields are sane (year in `[0, 9999]`, month in `[1, 12]`, day
in `[1, 31]`), but `NewYMDFlag` on a time outside that range stores an
out-of-range value. -/
theorem stored_value_in_range :
    (∀ (i : Int) (f : YMDFlag), NewYMDFlagFromInt i = .ok f →
      0 ≤ f.yyyymmdd ∧ f.yyyymmdd ≤ 99999999) ∧
    (∀ (udigit : Char → Bool) (ymd : YMDFlag) (value : GoStr),
      (YMDFlag.Set udigit ymd value).2 = none →
      0 ≤ (YMDFlag.Set udigit ymd value).1.yyyymmdd ∧
        (YMDFlag.Set udigit ymd value).1.yyyymmdd ≤ 99999999) ∧
    (∀ t : GoTime, 0 ≤ t.year → t.year ≤ 9999 → 1 ≤ t.month → t.month ≤ 12 →
      1 ≤ t.day → t.day ≤ 31 →
      0 ≤ (NewYMDFlag t).yyyymmdd ∧ (NewYMDFlag t).yyyymmdd ≤ 99999999) ∧
    (∀ (ymd : YMDFlag) (now : GoTime), 0 ≤ ymd.yyyymmdd → ymd.yyyymmdd ≤ 99999999 →
      0 ≤ now.year → now.year ≤ 9999 → 1 ≤ now.month → now.month ≤ 12 →
      1 ≤ now.day → now.day ≤ 31 →
      0 ≤ (ymd.UpdateNilToNow now).yyyymmdd ∧
        (ymd.UpdateNilToNow now).yyyymmdd ≤ 99999999) := by
  refine ⟨?_, ?_, ?_, ?_⟩
  · intro i f h
    unfold NewYMDFlagFromInt at h
    cases hV : ValidateYMD i with
    | error e =>
      rw [hV] at h
      exact absurd h (by simp)
    | ok u =>
      rw [hV] at h
      injection h with h'
      subst h'
      cases u
      simpa using validateYMD_ok_range i hV
  · intro udigit ymd value h
    unfold YMDFlag.Set at h ⊢
    cases hS : StringToYMD udigit value with
    | error e =>
      rw [hS] at h
      exact absurd h (by simp)
    | ok v =>
      simpa using stringToYMD_ok_range udigit value v hS
  · intro t ha hb hc hd he hf
    exact timeToYMD_range t ha hb hc hd he hf
  · intro ymd now ha hb hc hd he hf hg hh
    unfold YMDFlag.UpdateNilToNow
    split_ifs with hz
    · omega
    · simpa using timeToYMD_range now hc hd he hf hg hh

theorem stored_value_in_range_witness :
    0 ≤ (YMDFlag.mk 20220102).yyyymmdd ∧ (YMDFlag.mk 20220102).yyyymmdd ≤ 99999999 :=
  stored_value_in_range.1 20220102 ⟨20220102⟩ rfl

/-! ## Parsing lemmas for C5 -/

theorem isDigit_toNat_lt (c : Char) (h : c.isDigit = true) : c.toNat < 128 := by
  simp only [Char.isDigit, Bool.and_eq_true, decide_eq_true_eq] at h
  have h57 : c.val ≤ 57 := h.2
  rw [UInt32.le_def, BitVec.le_def] at h57
  have h3 : ((57 : UInt32)).toBitVec.toNat = 57 := by decide
  show c.val.toNat < 128
  have h4 : c.val.toNat = c.val.toBitVec.toNat := rfl
  omega

/-- An all-digits non-empty string starts with a digit, hence not with
a sign. -/
theorem no_sign_of_all_digits (s : GoStr) (hall : s.all Char.isDigit = true) :
    ¬(s.head? = some '-' ∨ s.head? = some '+') := by
  rintro (hh | hh) <;>
  · cases s with
    | nil => simp at hh
    | cons a t =>
      injection hh with hh'
      subst hh'
      simp only [List.all_cons, Bool.and_eq_true] at hall
      exact absurd hall.1 (by decide)

/-- `Atoi` of a non-empty all-ASCII-digits string is its value. -/
theorem goAtoi_of_digits (s : GoStr) (hne : s ≠ []) (hall : s.all Char.isDigit = true) :
    goAtoi s = .ok (digitsVal s) := by
  unfold goAtoi
  rw [if_neg (no_sign_of_all_digits s hall)]
  rw [if_neg (show ¬(s = [] ∨ ¬List.all s Char.isDigit = true) by push_neg; exact ⟨hne, hall⟩)]

/-- If the string passed `isInt` for a predicate that is honest on
ASCII, a successful `Atoi` means the string was all ASCII digits and
the result is its value. -/
theorem goAtoi_ok_digits (udigit : Char → Bool)
    (hud : ∀ c : Char, c.toNat < 128 → udigit c = c.isDigit)
    (s : GoStr) (w : Int) (hisInt : isInt udigit s = true)
    (hA : goAtoi s = .ok w) :
    s.all Char.isDigit = true ∧ w = digitsVal s := by
  have hsign : ¬(s.head? = some '-' ∨ s.head? = some '+') := by
    have hgen : ∀ c : Char, c.toNat < 128 → c.isDigit = false → s.head? = some c → False := by
      intro c hlt hdig hh
      cases s with
      | nil => simp at hh
      | cons a t =>
        injection hh with hh'
        simp only [isInt, List.all_cons, Bool.and_eq_true] at hisInt
        rw [hh', hud c hlt, hdig] at hisInt
        simp at hisInt
    rintro (hh | hh)
    · exact hgen '-' (by decide) (by decide) hh
    · exact hgen '+' (by decide) (by decide) hh
  unfold goAtoi at hA
  rw [if_neg hsign] at hA
  split_ifs at hA with hguard
  push_neg at hguard
  injection hA with hA'
  exact ⟨hguard.2, hA'.symm⟩

theorem exceptOk_eq_false {α : Type} (e : Except GoError α)
    (h : ∀ v : α, e ≠ .ok v) : exceptOk e = false := by
  cases e with
  | error e' => rfl
  | ok v => exact absurd rfl (h v)

/-- C5: `StringToYMD` maps the empty string to `0` with no error; a
successful parse implies the input was exactly 8 ASCII digits (or
empty); and an 8-ASCII-digit string parses to its decimal value exactly
when that value validates, erroring otherwise.  In particular
"20220101" parses to `20220101`, while "2022-01-01", "hello world" and
"123456789" all error.  The Unicode digit predicate is any function
that agrees with the ASCII digit test on ASCII characters, as
`unicode.IsDigit` does. -/
theorem stringToYMD_spec :
    ∀ udigit : Char → Bool,
      (∀ c : Char, c.toNat < 128 → udigit c = c.isDigit) →
      StringToYMD udigit [] = .ok 0 ∧
      (∀ (s : GoStr) (v : Int), StringToYMD udigit s = .ok v → s ≠ [] →
        s.length = 8 ∧ s.all Char.isDigit = true ∧ v = digitsVal s) ∧
      (∀ s : GoStr, s.length = 8 → s.all Char.isDigit = true →
        (ValidateYMD (digitsVal s) = .ok () →
          StringToYMD udigit s = .ok (digitsVal s)) ∧
        (ValidateYMD (digitsVal s) ≠ .ok () →
          exceptOk (StringToYMD udigit s) = false)) ∧
      StringToYMD udigit "20220101".toList = .ok 20220101 ∧
      exceptOk (StringToYMD udigit "2022-01-01".toList) = false ∧
      exceptOk (StringToYMD udigit "hello world".toList) = false ∧
      exceptOk (StringToYMD udigit "123456789".toList) = false := by
  intro udigit hud
  have conj2 : ∀ (s : GoStr) (v : Int), StringToYMD udigit s = .ok v → s ≠ [] →
      s.length = 8 ∧ s.all Char.isDigit = true ∧ v = digitsVal s := by
    intro s v hok hne
    unfold StringToYMD at hok
    rw [if_neg hne] at hok
    split_ifs at hok with hguard
    push_neg at hguard
    have hisInt : isInt udigit s = true := by
      have := hguard.2
      cases hb : isInt udigit s
      · exact absurd hb this
      · rfl
    split at hok
    · exact absurd hok (by simp)
    · rename_i w hA
      split at hok
      · exact absurd hok (by simp)
      · rename_i u hV
        injection hok with hok'
        subst hok'
        obtain ⟨hall, hval⟩ := goAtoi_ok_digits udigit hud s w hisInt hA
        refine ⟨?_, hall, hval⟩
        rw [← utf8Len_of_all_digits s hall]
        exact hguard.1
  have conj3 : ∀ s : GoStr, s.length = 8 → s.all Char.isDigit = true →
      (ValidateYMD (digitsVal s) = .ok () →
        StringToYMD udigit s = .ok (digitsVal s)) ∧
      (ValidateYMD (digitsVal s) ≠ .ok () →
        exceptOk (StringToYMD udigit s) = false) := by
    intro s hlen hall
    have hne : s ≠ [] := by
      intro h
      subst h
      simp at hlen
    have hisInt : isInt udigit s = true := by
      simp only [isInt, List.all_eq_true] at hall ⊢
      intro c hc
      rw [hud c (isDigit_toNat_lt c (hall c hc))]
      exact hall c hc
    have hguard : ¬(utf8Len s ≠ 8 ∨ isInt udigit s = false) := by
      push_neg
      constructor
      · rw [utf8Len_of_all_digits s hall]
        exact hlen
      · rw [hisInt]
        exact fun h => Bool.noConfusion h
    have hbase : StringToYMD udigit s =
        match ValidateYMD (digitsVal s) with
        | .error e => .error ("failed to validate string " ++ e)
        | .ok _ => .ok (digitsVal s) := by
      unfold StringToYMD
      rw [if_neg hne, if_neg hguard, goAtoi_of_digits s hne hall]
    constructor
    · intro hV
      rw [hbase, hV]
    · intro hV
      rw [hbase]
      cases hV2 : ValidateYMD (digitsVal s) with
      | error e => rfl
      | ok u =>
        cases u
        exact absurd hV2 hV
  refine ⟨rfl, conj2, conj3, ?_, ?_, ?_, ?_⟩
  · have h := (conj3 "20220101".toList rfl rfl).1 rfl
    exact h
  · apply exceptOk_eq_false
    intro v hv
    have := conj2 "2022-01-01".toList v hv (by decide)
    have hlen : ("2022-01-01".toList).length = 10 := rfl
    omega
  · apply exceptOk_eq_false
    intro v hv
    have := conj2 "hello world".toList v hv (by decide)
    have hlen : ("hello world".toList).length = 11 := rfl
    omega
  · apply exceptOk_eq_false
    intro v hv
    have := conj2 "123456789".toList v hv (by decide)
    have hlen : ("123456789".toList).length = 9 := rfl
    omega

theorem stringToYMD_spec_witness :
    StringToYMD Char.isDigit [] = .ok 0 ∧
    StringToYMD Char.isDigit "20220101".toList = .ok 20220101 :=
  ⟨(stringToYMD_spec Char.isDigit (fun _ _ => rfl)).1,
   (stringToYMD_spec Char.isDigit (fun _ _ => rfl)).2.2.2.1⟩

/-- C7: `FormatDirPath` on an unset flag is the empty string (it does
not resolve to today); on a set flag it joins the year zero-padded to 4
digits and the month and day zero-padded to 2 digits with the
separator — e.g. stored `20220102` with '/' gives "2022/01/02". -/
theorem formatDirPath_spec :
    (∀ sep : Char, FormatDirPath ⟨0⟩ sep = []) ∧
    (∀ (n : Int) (sep : Char), 1 ≤ n → n ≤ 99999999 →
      FormatDirPath ⟨n⟩ sep =
        sprintfPad 4 (n.tdiv 10000) ++
          sep :: (sprintfPad 2 ((n.tmod 10000).tdiv 100) ++
            sep :: sprintfPad 2 (n.tmod 100)) ∧
      (sprintfPad 4 (n.tdiv 10000)).length = 4 ∧
      (sprintfPad 2 ((n.tmod 10000).tdiv 100)).length = 2 ∧
      (sprintfPad 2 (n.tmod 100)).length = 2 ∧
      digitsVal (sprintfPad 4 (n.tdiv 10000)) = n.tdiv 10000 ∧
      digitsVal (sprintfPad 2 ((n.tmod 10000).tdiv 100)) = (n.tmod 10000).tdiv 100 ∧
      digitsVal (sprintfPad 2 (n.tmod 100)) = n.tmod 100 ∧
      (sprintfPad 4 (n.tdiv 10000)).all Char.isDigit = true ∧
      (sprintfPad 2 ((n.tmod 10000).tdiv 100)).all Char.isDigit = true ∧
      (sprintfPad 2 (n.tmod 100)).all Char.isDigit = true) ∧
    FormatDirPath ⟨20220102⟩ '/' = "2022/01/02".toList := by
  refine ⟨fun sep => rfl, ?_, by decide⟩
  intro n sep h1 h2
  have hz : (YMDFlag.mk n).IsZero = false := by
    unfold YMDFlag.IsZero
    change decide (n = 0) = false
    rw [decide_eq_false_iff_not]
    omega
  have hy := tdiv_10000 n (by omega)
  have hm := tmod_tdiv_100 n (by omega)
  have hd := tmod_100 n (by omega)
  have hyb : 0 ≤ n.tdiv 10000 ∧ n.tdiv 10000 < 10 ^ 4 := by
    rw [hy]
    norm_num
    omega
  have hmb : 0 ≤ (n.tmod 10000).tdiv 100 ∧ (n.tmod 10000).tdiv 100 < 10 ^ 2 := by
    rw [hm]
    norm_num
    omega
  have hdb : 0 ≤ n.tmod 100 ∧ n.tmod 100 < 10 ^ 2 := by
    rw [hd]
    norm_num
    omega
  obtain ⟨hy1, hy2, hy3⟩ :=
    sprintfPad_spec 4 (n.tdiv 10000) (by norm_num) (by norm_num) hyb.1 hyb.2
  obtain ⟨hm1, hm2, hm3⟩ :=
    sprintfPad_spec 2 ((n.tmod 10000).tdiv 100) (by norm_num) (by norm_num) hmb.1 hmb.2
  obtain ⟨hd1, hd2, hd3⟩ :=
    sprintfPad_spec 2 (n.tmod 100) (by norm_num) (by norm_num) hdb.1 hdb.2
  refine ⟨?_, hy1, hm1, hd1, hy2, hm2, hd2, hy3, hm3, hd3⟩
  unfold FormatDirPath
  simp only [hz, Bool.false_eq_true, if_false]
  unfold YMDFlag.AsYearMonthDay
  simp only [hz, Bool.false_eq_true, if_false]

theorem formatDirPath_spec_witness :
    FormatDirPath ⟨0⟩ '/' = [] ∧
    FormatDirPath ⟨20220102⟩ '/' =
      sprintfPad 4 2022 ++ '/' :: (sprintfPad 2 1 ++ '/' :: sprintfPad 2 2) := by
  constructor
  · exact formatDirPath_spec.1 '/'
  · exact (formatDirPath_spec.2.1 20220102 '/' (by norm_num) (by norm_num)).1

end Ymdflag
